import Mathlib

/-!
# Verification of the Dress e-commerce backend order/product routes

Shallow embedding of `src/backend/routes/orders.js` and
`src/backend/routes/products.js` (products listing, payment verification).
The persistence layer (MongoDB via mongoose) is modelled as explicit list
state: `findById` is first-match lookup by id, `save` replaces the first
matching record. Each route handler becomes a function from the database
state (plus request data) to the new database state and a result
(`Except` for the error responses).
-/

/-- Order status values of the Order schema.
Modelled from the spec: the Order model file (`backend/models/Order.js`) is
not part of the provided sources; §3 of the spec gives the status enum
`pending → processing → shipped → delivered, or → cancelled`. -/
inductive OrderStatus where
  | pending
  | processing
  | shipped
  | delivered
  | cancelled
deriving DecidableEq, Repr

/-- A catalog product (the fields the orders/products routes touch).
Numbers are modelled as `Int` (JS numbers used integrally here). -/
structure Product where
  pid : Nat
  name : String
  price : Int
  stock : Int
  category : String
  featured : Bool
deriving DecidableEq, Repr

/-- An item of the request body of `POST /orders` (`items` array entries). -/
structure OrderItemReq where
  product : Nat
  quantity : Int
  size : String
  color : String
deriving DecidableEq, Repr

/-- A persisted order item: the request item plus the unit-price snapshot
taken from the product at order-creation time (`orders.js` lines 82-88). -/
structure OrderItem where
  product : Nat
  quantity : Int
  price : Int
  size : String
  color : String
deriving DecidableEq, Repr

/-- A persisted order. `paymentId`/`paymentStatus` are the optional
`paymentInfo.id` / `paymentInfo.status` fields (absent at creation, set by
payment verification); `paymentMethodField` is `paymentInfo.method`. -/
structure Order where
  oid : Nat
  user : Nat
  items : List OrderItem
  totalAmount : Int
  shippingAddress : String
  paymentMethodField : String
  paymentId : Option String
  paymentStatus : Option String
  status : OrderStatus
  cancellationReason : Option String
deriving DecidableEq, Repr

/-- The requester's role as resolved by the auth middleware. -/
inductive Role where
  | admin
  | user
deriving DecidableEq, Repr

/-- The authenticated requester (`req.user`). -/
structure Requester where
  uid : Nat
  role : Role
deriving DecidableEq, Repr

/-- The persistence collaborator's state: the two collections. -/
structure DB where
  products : List Product
  orders : List Order
deriving DecidableEq, Repr

/-- The error taxonomy of the spec (§7); each constructor corresponds to one
of the error responses the route handlers return. `ServerError` is the
catch-all 500 response produced when a handler throws. -/
inductive OrderError where
  | ValidationError
  | NotFound
  | Forbidden
  | InsufficientStock
  | InvalidState
  | VerificationFailed
  | ServerError
deriving DecidableEq, Repr

/-! ## Persistence primitives -/

/-- Model of `Product.findById`: first-match lookup by product id. -/
def findProduct : List Product → Nat → Option Product
  | [], _ => none
  | p :: ps, i => if p.pid = i then some p else findProduct ps i

/-- Model of `product.save()`: replace the first record with the same id (append when
absent; in the modelled routes `save` always follows a successful lookup). -/
def saveProduct : List Product → Product → List Product
  | [], p => [p]
  | q :: qs, p => if q.pid = p.pid then p :: qs else q :: saveProduct qs p

/-- Model of `Order.findById`. -/
def findOrder : List Order → Nat → Option Order
  | [], _ => none
  | o :: os, i => if o.oid = i then some o else findOrder os i

/-- Model of `order.save()`. -/
def saveOrder : List Order → Order → List Order
  | [], o => [o]
  | q :: qs, o => if q.oid = o.oid then o :: qs else q :: saveOrder qs o

/-- The persisted stock of product `i` (0 when the product is absent). -/
def stockOf (ps : List Product) (i : Nat) : Int :=
  match findProduct ps i with
  | some p => p.stock
  | none => 0

/-- The persisted unit price of product `i` (0 when absent). -/
def priceOf (ps : List Product) (i : Nat) : Int :=
  match findProduct ps i with
  | some p => p.price
  | none => 0

/-- Whether product `i` exists. -/
def hasProduct (ps : List Product) (i : Nat) : Bool :=
  (findProduct ps i).isSome

/-- The character-wise ASCII lowercasing of JS `String.prototype.toLowerCase`
(the payment methods and search terms involved are basic latin). Written as
an explicit map over the character data so that it evaluates by reduction. -/
def strToLower (s : String) : String :=
  String.mk (s.data.map Char.toLower)

/-- The lowercased character sequence of a string. -/
def lowerChars (s : String) : List Char :=
  s.data.map Char.toLower

/-! ## Order creation (`POST /orders`, orders.js lines 56-116) -/

/-- The item-verification loop of order creation (lines 68-93): for each item
in input order, look up the product (404 when missing), check stock
(400 when `product.stock < item.quantity`), accumulate
`product.price * item.quantity` into the total, snapshot the item with the
product's current price, deduct the quantity from stock and save at once.
The returned database reflects every save performed before a failure. -/
def processItems (db : List Product) : List OrderItemReq →
    List Product × Except OrderError (Int × List OrderItem)
  | [] => (db, .ok (0, []))
  | item :: rest =>
    match findProduct db item.product with
    | none => (db, .error .NotFound)
    | some p =>
      if p.stock < item.quantity then
        (db, .error .InsufficientStock)
      else
        let db2 := saveProduct db { p with stock := p.stock - item.quantity }
        match processItems db2 rest with
        | (db3, .error e) => (db3, .error e)
        | (db3, .ok (t, its)) =>
          (db3, .ok (p.price * item.quantity + t,
            { product := item.product, quantity := item.quantity,
              price := p.price, size := item.size, color := item.color } :: its))

/-- One order creation request (`POST /orders`). `paymentMethod` is `none`
when the field is absent from the request body. Note that line 96 of
orders.js evaluates `paymentMethod.toLowerCase()` unconditionally, so an
absent payment method throws a `TypeError`, caught by the handler's
`catch` as a 500 response (`ServerError`) — after the stock deductions of
the loop have already been persisted. `oid` is the id the database assigns
to the new order. The created order's `status` defaults to `pending`
(modelled from the spec, §4.1: the schema default lives in the absent
`backend/models/Order.js`). -/
def createOrder (db : DB) (requester : Requester) (items : List OrderItemReq)
    (shippingAddress : String) (paymentMethod : Option String) (oid : Nat) :
    DB × Except OrderError Order :=
  if items.isEmpty then (db, .error .ValidationError)
  else
    match processItems db.products items with
    | (ps2, .error e) => ({ db with products := ps2 }, .error e)
    | (ps2, .ok (total, oitems)) =>
      match paymentMethod with
      | none => ({ db with products := ps2 }, .error .ServerError)
      | some pm =>
        let totalAmount := if strToLower pm = "cod" then total + 50 else total
        let order : Order :=
          { oid := oid, user := requester.uid, items := oitems,
            totalAmount := totalAmount, shippingAddress := shippingAddress,
            paymentMethodField := if pm = "" then "Razorpay" else pm,
            paymentId := none, paymentStatus := none,
            status := .pending, cancellationReason := none }
        ({ products := ps2, orders := db.orders ++ [order] }, .ok order)

/-! ## Order cancellation (`PUT /orders/:id/cancel`, lines 139-182) -/

/-- The stock-restoration loop of cancellation (lines 166-172): for each
item, look the product up and, when it still exists, add the quantity back
to its stock; a missing product is skipped. -/
def restoreStock (ps : List Product) : List OrderItem → List Product
  | [] => ps
  | it :: rest =>
    match findProduct ps it.product with
    | none => restoreStock ps rest
    | some p => restoreStock (saveProduct ps { p with stock := p.stock + it.quantity }) rest

/-- Route `PUT /orders/:id/cancel`: requires a truthy reason (400), an existing
order (404), an admin or owning requester (403), and a non-terminal status
(400 when already delivered or cancelled); then restores stock, sets
status to cancelled and persists the reason. -/
def cancelOrder (db : DB) (requester : Requester) (oid : Nat)
    (reason : Option String) : DB × Except OrderError Order :=
  if reason.getD "" = "" then (db, .error .ValidationError)
  else
    match findOrder db.orders oid with
    | none => (db, .error .NotFound)
    | some o =>
      if requester.role ≠ .admin ∧ o.user ≠ requester.uid then
        (db, .error .Forbidden)
      else if o.status = .delivered ∨ o.status = .cancelled then
        (db, .error .InvalidState)
      else
        let ps2 := restoreStock db.products o.items
        let o2 := { o with status := .cancelled, cancellationReason := reason }
        ({ products := ps2, orders := saveOrder db.orders o2 }, .ok o2)

/-! ## Admin status update (`PUT /orders/:id/status`, lines 119-136) -/

/-- Route `PUT /orders/:id/status` (admin-only by middleware): look the order up
(404 when absent) and overwrite its status unconditionally — no
transition-legality check. -/
def updateStatus (db : DB) (oid : Nat) (status : OrderStatus) :
    DB × Except OrderError Order :=
  match findOrder db.orders oid with
  | none => (db, .error .NotFound)
  | some o =>
    let o2 := { o with status := status }
    ({ db with orders := saveOrder db.orders o2 }, .ok o2)

/-! ## Single-order view (`GET /orders/:id`, lines 34-53) -/

/-- Route `GET /orders/:id`: 404 when absent, 403 when the requester is neither
admin nor the order's owner. -/
def getOrder (db : DB) (requester : Requester) (oid : Nat) :
    Except OrderError Order :=
  match findOrder db.orders oid with
  | none => .error .NotFound
  | some o =>
    if requester.role ≠ .admin ∧ o.user ≠ requester.uid then .error .Forbidden
    else .ok o

/-! ## Payment verification (`POST /payments/verify`, payments route) -/

/-- The response payload of a successful verification, echoing the gateway
order and payment ids. -/
structure VerifyResp where
  orderId : String
  paymentId : String
deriving DecidableEq, Repr

/-- Route `POST /payments/verify`. `hmacSha256 key msg` abstracts the external
`crypto.createHmac('sha256', key).update(msg).digest('hex')` collaborator;
the route signs `razorpay_order_id + '|' + razorpay_payment_id` with the
shared secret and compares the hex digest with the supplied signature by
plain equality. On a match, when a local `order_id` was supplied and found,
the order's `paymentInfo` is replaced by
`{id: paymentId, status: 'completed', method: 'Razorpay'}` and its status
set to `processing`; a supplied-but-missing order is only logged. -/
def verifyPayment (hmacSha256 : String → String → String) (secret : String)
    (db : DB) (gwOrderId gwPaymentId signature : String)
    (localOrderId : Option Nat) : DB × Except OrderError VerifyResp :=
  if gwOrderId = "" ∨ gwPaymentId = "" ∨ signature = "" then
    (db, .error .ValidationError)
  else
    let expected := hmacSha256 secret (gwOrderId ++ "|" ++ gwPaymentId)
    if expected ≠ signature then (db, .error .VerificationFailed)
    else
      let db2 :=
        match localOrderId with
        | none => db
        | some oid =>
          match findOrder db.orders oid with
          | none => db
          | some o =>
            { db with
              orders := saveOrder db.orders
                { o with paymentId := some gwPaymentId,
                         paymentStatus := some "completed",
                         paymentMethodField := "Razorpay",
                         status := .processing } }
      (db2, .ok { orderId := gwOrderId, paymentId := gwPaymentId })

/-! ## Catalog listing (`GET /products`, products.js lines 52-75) -/

/-- Returns `true` when `needle` occurs as a contiguous run at the head of `hay`. -/
def headMatch : List Char → List Char → Bool
  | [], _ => true
  | _ :: _, [] => false
  | n :: ns, h :: hs => n = h && headMatch ns hs

/-- Returns `true` when `needle` occurs as a contiguous run anywhere in `hay`. -/
def subMatch (needle : List Char) : List Char → Bool
  | [] => headMatch needle []
  | h :: hs => headMatch needle (h :: hs) || subMatch needle hs

/-- Case-insensitive substring match of `term` in `name`.
Modelled from the spec: the route delegates the name filter to the
persistence collaborator as `{ $regex: search, $options: 'i' }`; §4.5
describes that collaborator behaviour as "case-insensitive substring match
on name". -/
def containsCI (name term : String) : Bool :=
  subMatch (lowerChars term) (lowerChars name)

/-- The mongoose query object `GET /products` assembles: a `category` equal
filter when the parameter is truthy, a `featured = true` filter exactly when
the parameter is the string `"true"`, and a name filter when `search` is
truthy. -/
structure ProductQuery where
  category : Option String
  featuredOnly : Bool
  search : Option String
deriving DecidableEq, Repr

/-- JS truthiness of an optional request string: absent and `""` are falsy. -/
def jsTruthy (s : Option String) : Bool :=
  s.getD "" ≠ ""

/-- Lines 56-68 of products.js: build the query object from the request
parameters. -/
def buildQuery (category featured search : Option String) : ProductQuery :=
  { category := if jsTruthy category then category else none,
    featuredOnly := featured = some "true",
    search := if jsTruthy search then search else none }

/-- Whether a product satisfies the assembled query (the persistence
collaborator's `find`). -/
def matchesQuery (q : ProductQuery) (p : Product) : Bool :=
  (match q.category with
   | none => true
   | some c => p.category = c) &&
  (!q.featuredOnly || p.featured) &&
  (match q.search with
   | none => true
   | some s => containsCI p.name s)

/-- Route `GET /products`: return every product matching the assembled query. -/
def listProducts (db : DB) (category featured search : Option String) :
    List Product :=
  db.products.filter (fun p => matchesQuery (buildQuery category featured search) p)

/-! ## Aggregate quantities (specification-side accounting) -/

/-- Total requested quantity for product `i` across a request's items. -/
def itemsQty : List OrderItemReq → Nat → Int
  | [], _ => 0
  | it :: rest, i => (if it.product = i then it.quantity else 0) + itemsQty rest i

/-- Total ordered quantity for product `i` across a persisted order's items. -/
def orderQty : List OrderItem → Nat → Int
  | [], _ => 0
  | it :: rest, i => (if it.product = i then it.quantity else 0) + orderQty rest i

/-- Total quantity of product `i` held by orders that are not cancelled. -/
def activeQty : List Order → Nat → Int
  | [], _ => 0
  | o :: os, i =>
    (if o.status ≠ .cancelled then orderQty o.items i else 0) + activeQty os i

/-! ## Operation sequences (for the stock-conservation invariant)

The operations the orders route exposes that touch stock: order creation
and order cancellation. (`updateStatus` and `verifyPayment` never touch
stock but can rewrite statuses; they are modelled above and shown to break
the conservation invariant.) -/

/-- One request against the orders route. -/
inductive Op where
  | create (requester : Requester) (items : List OrderItemReq)
      (addr : String) (pm : Option String) (oid : Nat)
  | cancel (requester : Requester) (oid : Nat) (reason : Option String)
deriving DecidableEq, Repr

/-- Apply one request to the database, keeping whether it succeeded. -/
def applyOp (db : DB) : Op → DB × Bool
  | .create r items addr pm oid =>
    match createOrder db r items addr pm oid with
    | (db2, .ok _) => (db2, true)
    | (db2, .error _) => (db2, false)
  | .cancel r oid reason =>
    match cancelOrder db r oid reason with
    | (db2, .ok _) => (db2, true)
    | (db2, .error _) => (db2, false)

/-- Run a sequence of requests. -/
def runOps (db : DB) : List Op → DB
  | [] => db
  | op :: rest => runOps (applyOp db op).1 rest

/-- Every request of the sequence succeeds (no error response). -/
def opsGood (db : DB) : List Op → Bool
  | [] => true
  | op :: rest => (applyOp db op).2 && opsGood (applyOp db op).1 rest

/-! ## The stock-conservation invariant -/

/-- Conservation invariant relating the current database `db` to the initial
one `db0`: the set of existing products is stable, every persisted order
item references an existing product, and every product's stock equals its
initial stock minus the total quantity held by non-cancelled orders. -/
structure ConsInv (db0 db : DB) : Prop where
  pres : ∀ j, hasProduct db.products j = hasProduct db0.products j
  refs : ∀ o ∈ db.orders, ∀ it ∈ o.items, hasProduct db.products it.product = true
  cons : ∀ j, stockOf db.products j = stockOf db0.products j - activeQty db.orders j

/-- The catalog-listing predicate as the spec words it (§4.5 / C9): the
product's name contains the search term as a case-insensitive substring,
AND the product satisfies the category filter when one is supplied
(a present, non-empty `category` parameter), AND the featured filter when
`featured=true` is supplied. Written from the spec's sentence, to be
compared with `listProducts` (which is written from the code). -/
def specCatalogMatch (category featured : Option String) (term : String)
    (p : Product) : Bool :=
  containsCI p.name term &&
  (match category with
   | none => true
   | some c => if c = "" then true else decide (p.category = c)) &&
  (if featured = some "true" then p.featured else true)

/-! ## Concrete example data (used to instantiate the theorems) -/

/-- Two catalog products. -/
def exProducts : List Product :=
  [{ pid := 1, name := "Shirt", price := 100, stock := 5,
     category := "men", featured := true },
   { pid := 2, name := "Cap", price := 30, stock := 3,
     category := "men", featured := false }]

/-- A database with the two products and no orders. -/
def exDb : DB := { products := exProducts, orders := [] }

/-- A two-item request: 2 shirts and 1 cap. -/
def exItems : List OrderItemReq :=
  [{ product := 1, quantity := 2, size := "M", color := "blue" },
   { product := 2, quantity := 1, size := "S", color := "red" }]

/-- An ordinary (non-admin) requester. -/
def exUser : Requester := { uid := 7, role := Role.user }

/-- An admin requester. -/
def exAdmin : Requester := { uid := 1, role := Role.admin }

/-- A requester who neither owns `exOrder` nor is admin. -/
def exStranger : Requester := { uid := 8, role := Role.user }

/-- A pending order of user 7 holding 2 units of product 1 (as created when
the product's stock was 7, leaving the persisted stock at 5). -/
def exOrder : Order :=
  { oid := 1, user := 7,
    items := [{ product := 1, quantity := 2, price := 100,
                size := "M", color := "blue" }],
    totalAmount := 250, shippingAddress := "addr",
    paymentMethodField := "cod", paymentId := none, paymentStatus := none,
    status := OrderStatus.pending, cancellationReason := none }

/-- A database holding the two products and the pending order. -/
def exDbOrder : DB := { products := exProducts, orders := [exOrder] }

/-- A database holding the two products and the order already delivered. -/
def exDbDelivered : DB :=
  { products := exProducts,
    orders := [{ exOrder with status := OrderStatus.delivered }] }

/-- A sample HMAC collaborator used to instantiate the
payment-verification theorem (any function of key and message will do). -/
def exHmac : String → String → String :=
  fun key msg => key ++ ":" ++ msg

/-- A request naming the same product in two line items (2 + 3 of product 1
against stock 5). -/
def exItemsDup : List OrderItemReq :=
  [{ product := 1, quantity := 2, size := "M", color := "blue" },
   { product := 1, quantity := 3, size := "L", color := "blue" }]

/-- Prefix items for the partial-failure scenario: 2 units of product 1. -/
def exPre : List OrderItemReq :=
  [{ product := 1, quantity := 2, size := "M", color := "blue" }]

/-- Items after the failing one (never processed). -/
def exPost : List OrderItemReq :=
  [{ product := 2, quantity := 1, size := "S", color := "red" }]

/-- An item requesting 5 caps when only 3 are in stock. -/
def exBadStock : OrderItemReq :=
  { product := 2, quantity := 5, size := "S", color := "red" }

/-- An item referencing a product id that does not exist. -/
def exBadMissing : OrderItemReq :=
  { product := 9, quantity := 1, size := "S", color := "red" }

/-- The product state after `exPre` has been processed (shirt stock 5 → 3). -/
def exPs1 : List Product :=
  [{ pid := 1, name := "Shirt", price := 100, stock := 3,
     category := "men", featured := true },
   { pid := 2, name := "Cap", price := 30, stock := 3,
     category := "men", featured := false }]

/-- A successful create-then-cancel request sequence. -/
def exOps : List Op :=
  [Op.create { uid := 7, role := Role.user } exItems "addr" (some "card") 1,
   Op.cancel { uid := 7, role := Role.user } 1 (some "changed my mind")]

/-- State after cancelling `exOrder` (stock 5 → 7, order cancelled). -/
def c4db1 : DB := (cancelOrder exDbOrder exUser 1 (some "first cancel")).1

/-- State after the admin moves the cancelled order back to processing. -/
def c4db2 : DB := (updateStatus c4db1 1 OrderStatus.processing).1

/-- State after cancelling the same order a second time (stock 7 → 9). -/
def c4db3 : DB := (cancelOrder c4db2 exUser 1 (some "second cancel")).1

/-! ## Lemmas about the persistence primitives -/

theorem findProduct_pid {ps : List Product} {i : Nat} {p : Product}
    (h : findProduct ps i = some p) : p.pid = i := by
  induction ps with
  | nil => simp [findProduct] at h
  | cons q qs ih =>
    by_cases hq : q.pid = i
    · simp [findProduct, hq] at h
      subst h
      exact hq
    · simp [findProduct, hq] at h
      exact ih h

theorem findProduct_saveProduct (ps : List Product) (q : Product) (j : Nat) :
    findProduct (saveProduct ps q) j =
      if j = q.pid then some q else findProduct ps j := by
  induction ps with
  | nil =>
    by_cases hj : j = q.pid
    · subst hj
      simp [saveProduct, findProduct]
    · have hj2 : ¬ q.pid = j := fun h => hj h.symm
      simp [saveProduct, findProduct, hj, hj2]
  | cons p rest ih =>
    by_cases hp : p.pid = q.pid
    · by_cases hj : j = q.pid
      · subst hj
        simp [saveProduct, findProduct, hp]
      · have hq2 : ¬ q.pid = j := fun h => hj h.symm
        have hpj : ¬ p.pid = j := fun h => hq2 (hp.symm.trans h)
        simp [saveProduct, findProduct, hp, hj, hq2, hpj]
    · by_cases hpj : p.pid = j
      · have hj : ¬ j = q.pid := fun h => hp (hpj.trans h)
        simp [saveProduct, findProduct, hp, hpj, hj]
      · simp [saveProduct, findProduct, hp, hpj, ih]

theorem stockOf_saveProduct (ps : List Product) (q : Product) (j : Nat) :
    stockOf (saveProduct ps q) j = if j = q.pid then q.stock else stockOf ps j := by
  by_cases hj : j = q.pid <;> simp [stockOf, findProduct_saveProduct, hj]

theorem priceOf_saveProduct (ps : List Product) (q : Product) (j : Nat) :
    priceOf (saveProduct ps q) j = if j = q.pid then q.price else priceOf ps j := by
  by_cases hj : j = q.pid <;> simp [priceOf, findProduct_saveProduct, hj]

theorem hasProduct_saveProduct (ps : List Product) (q : Product) (j : Nat) :
    hasProduct (saveProduct ps q) j =
      if j = q.pid then true else hasProduct ps j := by
  by_cases hj : j = q.pid <;> simp [hasProduct, findProduct_saveProduct, hj]

theorem stockOf_eq_of_find {ps : List Product} {i : Nat} {p : Product}
    (h : findProduct ps i = some p) : stockOf ps i = p.stock := by
  simp [stockOf, h]

theorem priceOf_eq_of_find {ps : List Product} {i : Nat} {p : Product}
    (h : findProduct ps i = some p) : priceOf ps i = p.price := by
  simp [priceOf, h]

theorem findOrder_oid {os : List Order} {i : Nat} {o : Order}
    (h : findOrder os i = some o) : o.oid = i := by
  induction os with
  | nil => simp [findOrder] at h
  | cons q qs ih =>
    by_cases hq : q.oid = i
    · simp [findOrder, hq] at h
      subst h
      exact hq
    · simp [findOrder, hq] at h
      exact ih h

theorem findOrder_saveOrder (os : List Order) (q : Order) (j : Nat) :
    findOrder (saveOrder os q) j =
      if j = q.oid then some q else findOrder os j := by
  induction os with
  | nil =>
    by_cases hj : j = q.oid
    · subst hj
      simp [saveOrder, findOrder]
    · have hj2 : ¬ q.oid = j := fun h => hj h.symm
      simp [saveOrder, findOrder, hj, hj2]
  | cons p rest ih =>
    by_cases hp : p.oid = q.oid
    · by_cases hj : j = q.oid
      · subst hj
        simp [saveOrder, findOrder, hp]
      · have hq2 : ¬ q.oid = j := fun h => hj h.symm
        have hpj : ¬ p.oid = j := fun h => hq2 (hp.symm.trans h)
        simp [saveOrder, findOrder, hp, hj, hq2, hpj]
    · by_cases hpj : p.oid = j
      · have hj : ¬ j = q.oid := fun h => hp (hpj.trans h)
        simp [saveOrder, findOrder, hp, hpj, hj]
      · simp [saveOrder, findOrder, hp, hpj, ih]

/-! ## Characterising the order-creation loop -/

theorem processItems_ok :
    ∀ (items : List OrderItemReq) (ps ps2 : List Product) (t : Int)
      (its : List OrderItem),
    processItems ps items = (ps2, .ok (t, its)) →
    (∀ j, stockOf ps2 j = stockOf ps j - itemsQty items j) ∧
    (∀ j, priceOf ps2 j = priceOf ps j) ∧
    (∀ j, hasProduct ps2 j = hasProduct ps j) ∧
    its = items.map (fun it =>
      { product := it.product, quantity := it.quantity,
        price := priceOf ps it.product, size := it.size, color := it.color }) ∧
    t = (items.map (fun it => priceOf ps it.product * it.quantity)).sum ∧
    (∀ it ∈ items, hasProduct ps it.product = true) := by
  intro items
  induction items with
  | nil =>
    intro ps ps2 t its h
    simp only [processItems, Prod.mk.injEq, Except.ok.injEq] at h
    obtain ⟨h1, h2, h3⟩ := h
    subst h1
    subst h2
    subst h3
    refine ⟨fun j => ?_, fun j => rfl, fun j => rfl, rfl, rfl, by simp⟩
    simp [itemsQty]
  | cons item rest ih =>
    intro ps ps2 t its h
    cases hf : findProduct ps item.product with
    | none =>
      simp [processItems, hf] at h
    | some p =>
      simp only [processItems, hf] at h
      by_cases hs : p.stock < item.quantity
      · rw [if_pos hs] at h
        simp at h
      · rw [if_neg hs] at h
        rcases hrec : processItems
            (saveProduct ps { p with stock := p.stock - item.quantity }) rest
          with ⟨ps3, r⟩
        rw [hrec] at h
        cases r with
        | error e => simp at h
        | ok pr =>
          rcases pr with ⟨t', its'⟩
          simp only [Prod.mk.injEq, Except.ok.injEq] at h
          obtain ⟨hps, ht, hits⟩ := h
          subst hps
          obtain ⟨ihStock, ihPrice, ihHas, ihIts, ihT, ihMem⟩ := ih _ _ _ _ hrec
          have hpid : p.pid = item.product := findProduct_pid hf
          have hstock : stockOf ps item.product = p.stock := stockOf_eq_of_find hf
          have hprice : priceOf ps item.product = p.price := priceOf_eq_of_find hf
          have hhas : hasProduct ps item.product = true := by
            simp [hasProduct, hf]
          have hS : ∀ j, stockOf (saveProduct ps { p with stock := p.stock - item.quantity }) j
              = if j = item.product then p.stock - item.quantity else stockOf ps j := by
            intro j
            rw [stockOf_saveProduct]
            simp [hpid]
          have hP : ∀ j, priceOf (saveProduct ps { p with stock := p.stock - item.quantity }) j
              = priceOf ps j := by
            intro j
            rw [priceOf_saveProduct]
            by_cases hj : j = item.product
            · simp [hpid, hj, hprice]
            · simp [hpid, hj]
          have hH : ∀ j, hasProduct (saveProduct ps { p with stock := p.stock - item.quantity }) j
              = hasProduct ps j := by
            intro j
            rw [hasProduct_saveProduct]
            by_cases hj : j = item.product
            · simp [hpid, hj, hhas]
            · simp [hpid, hj]
          refine ⟨fun j => ?_, fun j => (ihPrice j).trans (hP j),
            fun j => (ihHas j).trans (hH j), ?_, ?_, ?_⟩
          · rw [ihStock j, hS j]
            by_cases hj : j = item.product
            · subst hj
              simp [itemsQty, hstock]
              ring
            · have hj2 : ¬ item.product = j := fun hh => hj hh.symm
              simp [itemsQty, hj2, hj]
          · rw [← hits, ihIts]
            have hfun : (fun it : OrderItemReq =>
                ({ product := it.product, quantity := it.quantity,
                   price := priceOf (saveProduct ps { p with stock := p.stock - item.quantity }) it.product,
                   size := it.size, color := it.color } : OrderItem)) =
                (fun it : OrderItemReq =>
                ({ product := it.product, quantity := it.quantity,
                   price := priceOf ps it.product,
                   size := it.size, color := it.color } : OrderItem)) := by
              funext it
              rw [hP it.product]
            rw [hfun]
            simp [hprice]
          · rw [← ht, ihT]
            have hfun : (fun it : OrderItemReq =>
                priceOf (saveProduct ps { p with stock := p.stock - item.quantity }) it.product * it.quantity) =
                (fun it : OrderItemReq => priceOf ps it.product * it.quantity) := by
              funext it
              rw [hP it.product]
            rw [hfun]
            simp [hprice]
          · intro it hit
            rcases List.mem_cons.mp hit with hh | hh
            · subst hh
              exact hhas
            · rw [← hH it.product]
              exact ihMem it hh

theorem itemsQty_nonneg {items : List OrderItemReq}
    (h : ∀ it ∈ items, 0 < it.quantity) (j : Nat) : 0 ≤ itemsQty items j := by
  induction items with
  | nil => simp [itemsQty]
  | cons it rest ih =>
    have h1 : 0 < it.quantity := h it (List.mem_cons_self it rest)
    have h2 : 0 ≤ itemsQty rest j := ih (fun x hx => h x (List.mem_cons_of_mem it hx))
    by_cases hj : it.product = j <;> simp [itemsQty, hj] <;> omega

theorem processItems_succeeds :
    ∀ (items : List OrderItemReq) (ps : List Product),
    (∀ it ∈ items, 0 < it.quantity) →
    (∀ it ∈ items, hasProduct ps it.product = true) →
    (∀ it ∈ items, itemsQty items it.product ≤ stockOf ps it.product) →
    ∃ ps2 t its, processItems ps items = (ps2, Except.ok (t, its)) := by
  intro items
  induction items with
  | nil =>
    intro ps _ _ _
    exact ⟨ps, 0, [], rfl⟩
  | cons item rest ih =>
    intro ps hq hhas hstk
    have hhas1 : hasProduct ps item.product = true :=
      hhas item (List.mem_cons_self item rest)
    rcases hfp : findProduct ps item.product with _ | p
    · rw [hasProduct, hfp] at hhas1
      simp at hhas1
    · have hpid : p.pid = item.product := findProduct_pid hfp
      have hstock : stockOf ps item.product = p.stock := stockOf_eq_of_find hfp
      have hrest_nonneg : 0 ≤ itemsQty rest item.product :=
        itemsQty_nonneg (fun x hx => hq x (List.mem_cons_of_mem item hx)) item.product
      have hqty : item.quantity ≤ p.stock := by
        have := hstk item (List.mem_cons_self item rest)
        simp [itemsQty, hstock] at this
        omega
      have hs : ¬ p.stock < item.quantity := by omega
      have hS : ∀ j, stockOf (saveProduct ps { p with stock := p.stock - item.quantity }) j
          = if j = item.product then p.stock - item.quantity else stockOf ps j := by
        intro j
        rw [stockOf_saveProduct]
        simp [hpid]
      have hH : ∀ j, hasProduct (saveProduct ps { p with stock := p.stock - item.quantity }) j
          = hasProduct ps j := by
        intro j
        rw [hasProduct_saveProduct]
        by_cases hj : j = item.product
        · simp [hpid, hj, hhas1]
        · simp [hpid, hj]
      obtain ⟨ps2, t, its, hrec⟩ := ih (saveProduct ps { p with stock := p.stock - item.quantity })
        (fun x hx => hq x (List.mem_cons_of_mem item hx))
        (fun x hx => by rw [hH x.product]; exact hhas x (List.mem_cons_of_mem item hx))
        (by
          intro x hx
          have hmem := hstk x (List.mem_cons_of_mem item hx)
          rw [hS x.product]
          by_cases hj : x.product = item.product
          · simp [itemsQty, hj, hstock] at hmem ⊢
            omega
          · have hj2 : ¬ item.product = x.product := fun hh => hj hh.symm
            simp [itemsQty, hj2] at hmem
            simp [hj, hmem])
      refine ⟨ps2, p.price * item.quantity + t,
        { product := item.product, quantity := item.quantity,
          price := p.price, size := item.size, color := item.color } :: its, ?_⟩
      simp only [processItems, hfp, if_neg hs, hrec]

theorem processItems_append_error :
    ∀ (pre : List OrderItemReq) (ps ps1 ps3 : List Product) (t : Int)
      (its : List OrderItem) (e : OrderError) (more : List OrderItemReq),
    processItems ps pre = (ps1, Except.ok (t, its)) →
    processItems ps1 more = (ps3, Except.error e) →
    processItems ps (pre ++ more) = (ps3, Except.error e) := by
  intro pre
  induction pre with
  | nil =>
    intro ps ps1 ps3 t its e more h1 h2
    simp only [processItems, Prod.mk.injEq, Except.ok.injEq] at h1
    obtain ⟨hps, _, _⟩ := h1
    subst hps
    simpa using h2
  | cons item rest ih =>
    intro ps ps1 ps3 t its e more h1 h2
    cases hf : findProduct ps item.product with
    | none => simp [processItems, hf] at h1
    | some p =>
      simp only [processItems, hf] at h1
      by_cases hs : p.stock < item.quantity
      · rw [if_pos hs] at h1
        simp at h1
      · rw [if_neg hs] at h1
        rcases hrec : processItems
            (saveProduct ps { p with stock := p.stock - item.quantity }) rest
          with ⟨ps5, r⟩
        rw [hrec] at h1
        cases r with
        | error e2 => simp at h1
        | ok pr =>
          rcases pr with ⟨t', its'⟩
          simp only [Prod.mk.injEq, Except.ok.injEq] at h1
          obtain ⟨hps, _, _⟩ := h1
          subst hps
          have hrec2 := ih _ _ _ _ _ _ _ hrec h2
          show processItems ps (item :: (rest ++ more)) = (ps3, Except.error e)
          simp only [processItems, hf, if_neg hs, hrec2]

theorem mem_saveProduct {ps : List Product} {p q : Product}
    (h : q ∈ saveProduct ps p) : q = p ∨ q ∈ ps := by
  induction ps with
  | nil =>
    simp [saveProduct] at h
    exact Or.inl h
  | cons r rest ih =>
    by_cases hr : r.pid = p.pid
    · simp [saveProduct, hr] at h
      rcases h with h | h
      · exact Or.inl h
      · exact Or.inr (List.mem_cons_of_mem r h)
    · simp [saveProduct, hr] at h
      rcases h with h | h
      · exact Or.inr (by simp [h])
      · rcases ih h with h2 | h2
        · exact Or.inl h2
        · exact Or.inr (List.mem_cons_of_mem r h2)

theorem processItems_nonneg :
    ∀ (items : List OrderItemReq) (ps ps2 : List Product)
      (r : Except OrderError (Int × List OrderItem)),
    processItems ps items = (ps2, r) →
    (∀ p ∈ ps, 0 ≤ p.stock) → ∀ p ∈ ps2, 0 ≤ p.stock := by
  intro items
  induction items with
  | nil =>
    intro ps ps2 r h hpos
    simp only [processItems, Prod.mk.injEq] at h
    obtain ⟨hps, _⟩ := h
    subst hps
    exact hpos
  | cons item rest ih =>
    intro ps ps2 r h hpos
    cases hf : findProduct ps item.product with
    | none =>
      simp only [processItems, hf, Prod.mk.injEq] at h
      obtain ⟨hps, _⟩ := h
      subst hps
      exact hpos
    | some p =>
      simp only [processItems, hf] at h
      by_cases hs : p.stock < item.quantity
      · rw [if_pos hs] at h
        simp only [Prod.mk.injEq] at h
        obtain ⟨hps, _⟩ := h
        subst hps
        exact hpos
      · rw [if_neg hs] at h
        have hpos2 : ∀ q ∈ saveProduct ps { p with stock := p.stock - item.quantity },
            0 ≤ q.stock := by
          intro q hqmem
          rcases mem_saveProduct hqmem with hq | hq
          · subst hq
            simp
            omega
          · exact hpos q hq
        rcases hrec : processItems
            (saveProduct ps { p with stock := p.stock - item.quantity }) rest
          with ⟨ps5, r'⟩
        rw [hrec] at h
        cases r' with
        | error e2 =>
          simp only [Prod.mk.injEq] at h
          obtain ⟨hps, _⟩ := h
          subst hps
          exact ih _ _ _ hrec hpos2
        | ok pr =>
          rcases pr with ⟨t', its'⟩
          simp only [Prod.mk.injEq] at h
          obtain ⟨hps, _⟩ := h
          subst hps
          exact ih _ _ _ hrec hpos2

/-! ## Characterising the cancellation restoration loop -/

theorem restoreStock_spec :
    ∀ (its : List OrderItem) (ps : List Product),
    (∀ j, hasProduct (restoreStock ps its) j = hasProduct ps j) ∧
    (∀ j, stockOf (restoreStock ps its) j =
      stockOf ps j + (if hasProduct ps j then orderQty its j else 0)) := by
  intro its
  induction its with
  | nil =>
    intro ps
    refine ⟨fun j => rfl, fun j => ?_⟩
    simp [restoreStock, orderQty]
  | cons it rest ih =>
    intro ps
    cases hf : findProduct ps it.product with
    | none =>
      have hhas0 : hasProduct ps it.product = false := by
        simp [hasProduct, hf]
      obtain ⟨ihHas, ihStock⟩ := ih ps
      refine ⟨fun j => by simp [restoreStock, hf, ihHas j], fun j => ?_⟩
      rw [restoreStock]
      rw [hf]
      rw [ihStock j]
      by_cases hpj : hasProduct ps j
      · have hj : ¬ it.product = j := by
          intro hh
          rw [hh] at hhas0
          rw [hpj] at hhas0
          simp at hhas0
        simp [hpj, orderQty, hj]
      · simp [hpj]
    | some p =>
      have hpid : p.pid = it.product := findProduct_pid hf
      have hhas1 : hasProduct ps it.product = true := by
        simp [hasProduct, hf]
      have hstock : stockOf ps it.product = p.stock := stockOf_eq_of_find hf
      have hS : ∀ j, stockOf (saveProduct ps { p with stock := p.stock + it.quantity }) j
          = if j = it.product then p.stock + it.quantity else stockOf ps j := by
        intro j
        rw [stockOf_saveProduct]
        simp [hpid]
      have hH : ∀ j, hasProduct (saveProduct ps { p with stock := p.stock + it.quantity }) j
          = hasProduct ps j := by
        intro j
        rw [hasProduct_saveProduct]
        by_cases hj : j = it.product
        · simp [hpid, hj, hhas1]
        · simp [hpid, hj]
      obtain ⟨ihHas, ihStock⟩ := ih (saveProduct ps { p with stock := p.stock + it.quantity })
      constructor
      · intro j
        rw [restoreStock]
        rw [hf]
        rw [ihHas j, hH j]
      · intro j
        rw [restoreStock]
        rw [hf]
        rw [ihStock j, hS j, hH j]
        by_cases hj : j = it.product
        · subst hj
          simp [hhas1, orderQty, hstock]
          omega
        · have hj2 : ¬ it.product = j := fun hh => hj hh.symm
          by_cases hpj : hasProduct ps j
          · simp [hj, hpj, orderQty, hj2]
          · simp [hj, hpj]

theorem orderQty_eq_zero_of_absent :
    ∀ (its : List OrderItem) (ps : List Product) (j : Nat),
    (∀ it ∈ its, hasProduct ps it.product = true) →
    hasProduct ps j = false → orderQty its j = 0 := by
  intro its
  induction its with
  | nil => intro ps j _ _; simp [orderQty]
  | cons it rest ih =>
    intro ps j hmem habs
    have h1 : hasProduct ps it.product = true := hmem it (List.mem_cons_self it rest)
    have hj : ¬ it.product = j := by
      intro hh
      rw [hh] at h1
      rw [habs] at h1
      simp at h1
    rw [orderQty]
    rw [if_neg hj, ih ps j (fun x hx => hmem x (List.mem_cons_of_mem it hx)) habs]
    simp

/-! ## Accounting lemmas for the active-order quantity -/

theorem activeQty_append (os : List Order) (o : Order) (j : Nat) :
    activeQty (os ++ [o]) j =
      activeQty os j + (if o.status ≠ .cancelled then orderQty o.items j else 0) := by
  induction os with
  | nil => simp [activeQty]
  | cons q qs ih =>
    simp only [List.cons_append, List.append_eq, activeQty, ih]
    ring

theorem activeQty_saveOrder :
    ∀ (os : List Order) (i : Nat) (o o' : Order) (j : Nat),
    findOrder os i = some o → o'.oid = i →
    activeQty (saveOrder os o') j =
      activeQty os j - (if o.status ≠ .cancelled then orderQty o.items j else 0)
        + (if o'.status ≠ .cancelled then orderQty o'.items j else 0) := by
  intro os
  induction os with
  | nil => intro i o o' j h _; simp [findOrder] at h
  | cons q qs ih =>
    intro i o o' j h hoid
    by_cases hq : q.oid = i
    · rw [findOrder] at h
      rw [if_pos hq] at h
      have hqo : q = o := by
        injection h
      subst hqo
      have hsave : q.oid = o'.oid := by rw [hq, hoid]
      rw [saveOrder]
      rw [if_pos hsave]
      simp only [activeQty]
      ring
    · rw [findOrder] at h
      rw [if_neg hq] at h
      have hsave : ¬ q.oid = o'.oid := by
        rw [hoid]
        exact hq
      rw [saveOrder]
      rw [if_neg hsave]
      simp only [activeQty]
      rw [ih i o o' j h hoid]
      ring

theorem orderQty_map (items : List OrderItemReq) (g : OrderItemReq → Int) (j : Nat) :
    orderQty (items.map (fun it =>
      { product := it.product, quantity := it.quantity, price := g it,
        size := it.size, color := it.color })) j = itemsQty items j := by
  induction items with
  | nil => simp [orderQty, itemsQty]
  | cons it rest ih =>
    simp only [List.map_cons, orderQty, itemsQty, ih]

theorem findOrder_mem {os : List Order} {i : Nat} {o : Order}
    (h : findOrder os i = some o) : o ∈ os := by
  induction os with
  | nil => simp [findOrder] at h
  | cons q qs ih =>
    by_cases hq : q.oid = i
    · rw [findOrder] at h
      rw [if_pos hq] at h
      injection h with h
      simp [h]
    · rw [findOrder] at h
      rw [if_neg hq] at h
      exact List.mem_cons_of_mem q (ih h)

theorem mem_saveOrder {os : List Order} {o q : Order}
    (h : q ∈ saveOrder os o) : q = o ∨ q ∈ os := by
  induction os with
  | nil =>
    simp [saveOrder] at h
    exact Or.inl h
  | cons r rest ih =>
    by_cases hr : r.oid = o.oid
    · simp [saveOrder, hr] at h
      rcases h with h | h
      · exact Or.inl h
      · exact Or.inr (List.mem_cons_of_mem r h)
    · simp [saveOrder, hr] at h
      rcases h with h | h
      · exact Or.inr (by simp [h])
      · rcases ih h with h2 | h2
        · exact Or.inl h2
        · exact Or.inr (List.mem_cons_of_mem r h2)

theorem consInv_create {db0 db db2 : DB} {r : Requester}
    {items : List OrderItemReq} {addr : String} {pm : Option String}
    {oid : Nat} {o : Order} (hInv : ConsInv db0 db)
    (h : createOrder db r items addr pm oid = (db2, .ok o)) : ConsInv db0 db2 := by
  rw [createOrder] at h
  by_cases hempty : items.isEmpty
  · rw [if_pos hempty] at h
    simp at h
  · rw [if_neg hempty] at h
    rcases hpi : processItems db.products items with ⟨ps2, r2⟩
    rw [hpi] at h
    cases r2 with
    | error e => simp at h
    | ok pr =>
      rcases pr with ⟨t, its⟩
      cases pm with
      | none => simp at h
      | some s =>
        simp only [Prod.mk.injEq, Except.ok.injEq] at h
        obtain ⟨hdb2, ho⟩ := h
        obtain ⟨hStock, hPrice, hHas, hIts, hT, hMem⟩ := processItems_ok _ _ _ _ _ hpi
        subst hdb2
        constructor
        · intro j
          rw [hHas j]
          exact hInv.pres j
        · intro o2 ho2 it hit
          simp only [List.mem_append, List.mem_singleton] at ho2
          rcases ho2 with ho2 | ho2
          · rw [hHas it.product]
            exact hInv.refs o2 ho2 it hit
          · subst ho2
            simp only at hit
            rw [hIts] at hit
            simp only [List.mem_map] at hit
            obtain ⟨it0, hit0, hit0eq⟩ := hit
            rw [← hit0eq]
            simp only
            rw [hHas it0.product]
            exact hMem it0 hit0
        · intro j
          simp only
          rw [hStock j, hInv.cons j, activeQty_append]
          simp only
          have : orderQty its j = itemsQty items j := by
            rw [hIts]
            exact orderQty_map items (fun it => priceOf db.products it.product) j
          simp [this]
          omega

theorem consInv_cancel {db0 db db2 : DB} {r : Requester} {oid : Nat}
    {reason : Option String} {o2 : Order} (hInv : ConsInv db0 db)
    (h : cancelOrder db r oid reason = (db2, .ok o2)) : ConsInv db0 db2 := by
  rw [cancelOrder] at h
  by_cases hreason : reason.getD "" = ""
  · rw [if_pos hreason] at h
    simp at h
  · rw [if_neg hreason] at h
    rcases hfo : findOrder db.orders oid with _ | o
    · rw [hfo] at h
      simp at h
    · simp only [hfo] at h
      by_cases hauth : r.role ≠ .admin ∧ o.user ≠ r.uid
      · rw [if_pos hauth] at h
        simp at h
      · rw [if_neg hauth] at h
        by_cases hstate : o.status = .delivered ∨ o.status = .cancelled
        · rw [if_pos hstate] at h
          simp at h
        · rw [if_neg hstate] at h
          simp only [Prod.mk.injEq, Except.ok.injEq] at h
          obtain ⟨hdb2, ho2⟩ := h
          subst ho2
          subst hdb2
          have homem : o ∈ db.orders := findOrder_mem hfo
          have hrefs : ∀ it ∈ o.items, hasProduct db.products it.product = true :=
            hInv.refs o homem
          obtain ⟨hRHas, hRStock⟩ := restoreStock_spec o.items db.products
          have hrestore : ∀ j, stockOf (restoreStock db.products o.items) j =
              stockOf db.products j + orderQty o.items j := by
            intro j
            rw [hRStock j]
            by_cases hpj : hasProduct db.products j
            · simp [hpj]
            · have habs : hasProduct db.products j = false := by
                simpa using hpj
              rw [orderQty_eq_zero_of_absent o.items db.products j hrefs habs]
              simp [habs]
          have hnotc : o.status ≠ OrderStatus.cancelled := fun hh => hstate (Or.inr hh)
          have hAQ : ∀ j, activeQty (saveOrder db.orders
              { o with status := OrderStatus.cancelled, cancellationReason := reason }) j =
              activeQty db.orders j - orderQty o.items j := by
            intro j
            rw [activeQty_saveOrder db.orders oid o
              { o with status := OrderStatus.cancelled, cancellationReason := reason } j hfo
              (show o.oid = oid from findOrder_oid hfo)]
            simp [hnotc]
          constructor
          · intro j
            exact (hRHas j).trans (hInv.pres j)
          · intro o3 ho3 it hit
            rcases mem_saveOrder ho3 with h3 | h3
            · subst h3
              rw [hRHas it.product]
              exact hrefs it hit
            · rw [hRHas it.product]
              exact hInv.refs o3 h3 it hit
          · intro j
            show stockOf (restoreStock db.products o.items) j = _
            rw [hrestore j, hInv.cons j]
            have := hAQ j
            simp only at this ⊢
            rw [this]
            omega

theorem consInv_runOps :
    ∀ (ops : List Op) (db0 db : DB), ConsInv db0 db → opsGood db ops = true →
    ConsInv db0 (runOps db ops) := by
  intro ops
  induction ops with
  | nil => intro db0 db hInv _; exact hInv
  | cons op rest ih =>
    intro db0 db hInv hg
    rw [opsGood] at hg
    rw [Bool.and_eq_true] at hg
    obtain ⟨hok, hrest⟩ := hg
    rw [runOps]
    refine ih db0 (applyOp db op).1 ?_ hrest
    cases op with
    | create r items addr pm oid =>
      rcases hc : createOrder db r items addr pm oid with ⟨db', res⟩
      cases res with
      | error e =>
        rw [applyOp] at hok
        rw [hc] at hok
        simp at hok
      | ok o =>
        have : (applyOp db (Op.create r items addr pm oid)).1 = db' := by
          rw [applyOp]
          rw [hc]
        rw [this]
        exact consInv_create hInv hc
    | cancel r oid reason =>
      rcases hc : cancelOrder db r oid reason with ⟨db', res⟩
      cases res with
      | error e =>
        rw [applyOp] at hok
        rw [hc] at hok
        simp at hok
      | ok o =>
        have : (applyOp db (Op.cancel r oid reason)).1 = db' := by
          rw [applyOp]
          rw [hc]
        rw [this]
        exact consInv_cancel hInv hc

/-! ## Claim theorems -/

/-- C1: for every nonempty item sequence (quantities positive, per the
Order data model) in which each referenced product exists and its stock
covers the total requested quantity, order creation succeeds, each
referenced product's persisted stock is decremented by exactly the ordered
quantity (and unreferenced products are untouched: `itemsQty` is 0 there),
each recorded item snapshots the product's current unit price, and the
order's totalAmount is Σ (unit price × quantity) plus a flat 50-unit
surcharge iff the payment method lower-cases to "cod". -/
theorem claim_C1_create_order_spec (db : DB) (r : Requester)
    (items : List OrderItemReq) (addr : String) (pm : String) (oid : Nat)
    (hne : items ≠ [])
    (hq : ∀ it ∈ items, 0 < it.quantity)
    (hhas : ∀ it ∈ items, hasProduct db.products it.product = true)
    (hstk : ∀ it ∈ items, itemsQty items it.product ≤ stockOf db.products it.product) :
    ∃ o : Order,
      (createOrder db r items addr (some pm) oid).2 = Except.ok o ∧
      o.items = items.map (fun it =>
        { product := it.product, quantity := it.quantity,
          price := priceOf db.products it.product, size := it.size,
          color := it.color }) ∧
      o.totalAmount =
        (items.map (fun it => priceOf db.products it.product * it.quantity)).sum
          + (if strToLower pm = "cod" then 50 else 0) ∧
      o.status = OrderStatus.pending ∧
      (∀ j, stockOf (createOrder db r items addr (some pm) oid).1.products j
        = stockOf db.products j - itemsQty items j) := by
  obtain ⟨ps2, t, its, hpi⟩ := processItems_succeeds items db.products hq hhas hstk
  obtain ⟨hStock, hPrice, hHas, hIts, hT, hMem⟩ := processItems_ok _ _ _ _ _ hpi
  have hempty : items.isEmpty = false := by
    cases items with
    | nil => exact absurd rfl hne
    | cons a l => rfl
  have hco : createOrder db r items addr (some pm) oid =
      ({ products := ps2, orders := db.orders ++
          [{ oid := oid, user := r.uid, items := its,
             totalAmount := if strToLower pm = "cod" then t + 50 else t,
             shippingAddress := addr,
             paymentMethodField := if pm = "" then "Razorpay" else pm,
             paymentId := none, paymentStatus := none,
             status := OrderStatus.pending, cancellationReason := none }] },
        Except.ok
          { oid := oid, user := r.uid, items := its,
            totalAmount := if strToLower pm = "cod" then t + 50 else t,
            shippingAddress := addr,
            paymentMethodField := if pm = "" then "Razorpay" else pm,
            paymentId := none, paymentStatus := none,
            status := OrderStatus.pending, cancellationReason := none }) := by
    rw [createOrder, hempty, hpi]
    simp
  refine ⟨_, by rw [hco], ?_, ?_, rfl, ?_⟩
  · simpa using hIts
  · show (if strToLower pm = "cod" then t + 50 else t) = _
    rw [hT]
    by_cases hcod : strToLower pm = "cod"
    · simp [hcod]
    · simp [hcod]
  · intro j
    rw [hco]
    exact hStock j

/-- Witness for C1: a two-item "COD" order (prices 100 and 30, quantities
2 and 1) against products with stock 5 and 3. -/
theorem claim_C1_witness :
    ∃ o : Order,
      (createOrder exDb exUser exItems "addr" (some "COD") 1).2 = Except.ok o ∧
      o.items = exItems.map (fun it =>
        { product := it.product, quantity := it.quantity,
          price := priceOf exDb.products it.product, size := it.size,
          color := it.color }) ∧
      o.totalAmount =
        (exItems.map (fun it => priceOf exDb.products it.product * it.quantity)).sum
          + (if strToLower "COD" = "cod" then 50 else 0) ∧
      o.status = OrderStatus.pending ∧
      (∀ j, stockOf (createOrder exDb exUser exItems "addr" (some "COD") 1).1.products j
        = stockOf exDb.products j - itemsQty exItems j) :=
  claim_C1_create_order_spec exDb exUser exItems "addr" "COD" 1 (by decide)
    (by decide) (by decide) (by decide)

/-- C10: under sequential execution order creation preserves non-negativity
of every product's stock — each line item re-reads the product's
then-current stock and deducts only after checking `stock < quantity`
fails, so stock never drops below zero even when one product id appears in
several line items of the same request. -/
theorem claim_C10_stock_nonneg (db : DB) (r : Requester)
    (items : List OrderItemReq) (addr : String) (pm : Option String)
    (oid : Nat) (hpos : ∀ p ∈ db.products, 0 ≤ p.stock) :
    ∀ p ∈ (createOrder db r items addr pm oid).1.products, 0 ≤ p.stock := by
  rw [createOrder]
  by_cases hempty : items.isEmpty
  · rw [if_pos hempty]
    exact hpos
  · rw [if_neg hempty]
    rcases hpi : processItems db.products items with ⟨ps2, r2⟩
    have hps2 : ∀ p ∈ ps2, 0 ≤ p.stock := processItems_nonneg _ _ _ _ hpi hpos
    cases r2 with
    | error e => simpa using hps2
    | ok pr =>
      rcases pr with ⟨t, its⟩
      cases pm with
      | none => simpa using hps2
      | some s => simpa using hps2

/-- Witness for C10: the duplicate-item request (2 + 3 of product 1 against
stock 5) leaves the shirt at stock 0, which is non-negative. -/
theorem claim_C10_witness :
    0 ≤ ({ pid := 1, name := "Shirt", price := 100, stock := 0,
           category := "men", featured := true } : Product).stock :=
  claim_C10_stock_nonneg exDb exUser exItemsDup "addr" (some "card") 1
    (by decide)
    { pid := 1, name := "Shirt", price := 100, stock := 0,
      category := "men", featured := true }
    (by decide)

/-- C2: when, after a prefix of items has been processed successfully, the
next item's product has insufficient stock (or is missing), order creation
fails with InsufficientStock (resp. NotFound); the database keeps exactly
the deductions of the already-processed prefix (`ps1`), so items later in
input order are untouched and the earlier deductions are not rolled back
(products not referenced by the prefix have `itemsQty exPre j = 0`, hence
unchanged stock). -/
theorem claim_C2_no_rollback (db : DB) (r : Requester)
    (pre post : List OrderItemReq) (bad : OrderItemReq) (addr : String)
    (pm : Option String) (oid : Nat) (ps1 : List Product) (t : Int)
    (its : List OrderItem)
    (hpre : processItems db.products pre = (ps1, Except.ok (t, its))) :
    (∀ p : Product, findProduct ps1 bad.product = some p →
      p.stock < bad.quantity →
      createOrder db r (pre ++ bad :: post) addr pm oid =
        ({ db with products := ps1 }, Except.error OrderError.InsufficientStock)) ∧
    (findProduct ps1 bad.product = none →
      createOrder db r (pre ++ bad :: post) addr pm oid =
        ({ db with products := ps1 }, Except.error OrderError.NotFound)) ∧
    (∀ j, stockOf ps1 j = stockOf db.products j - itemsQty pre j) := by
  have hne : (pre ++ bad :: post).isEmpty = false := by
    cases pre <;> rfl
  refine ⟨?_, ?_, (processItems_ok _ _ _ _ _ hpre).1⟩
  · intro p hfb hlt
    have hbad : processItems ps1 (bad :: post) =
        (ps1, Except.error OrderError.InsufficientStock) := by
      simp only [processItems, hfb, if_pos hlt]
    have happ := processItems_append_error pre _ _ _ _ _ _ _ hpre hbad
    rw [createOrder, hne, happ]
    simp
  · intro hfb
    have hbad : processItems ps1 (bad :: post) =
        (ps1, Except.error OrderError.NotFound) := by
      simp only [processItems, hfb]
    have happ := processItems_append_error pre _ _ _ _ _ _ _ hpre hbad
    rw [createOrder, hne, happ]
    simp

/-- Witness for C2: after deducting the 2-shirt prefix (stock 5 → 3), a
request for 5 caps (stock 3) fails with InsufficientStock, and a request
for missing product 9 fails with NotFound; both leave the database at the
prefix state `exPs1` and never touch the cap stock. -/
theorem claim_C2_witness :
    createOrder exDb exUser (exPre ++ exBadStock :: exPost) "addr"
        (some "card") 1 =
      ({ exDb with products := exPs1 }, Except.error OrderError.InsufficientStock) ∧
    createOrder exDb exUser (exPre ++ exBadMissing :: exPost) "addr"
        (some "card") 1 =
      ({ exDb with products := exPs1 }, Except.error OrderError.NotFound) ∧
    stockOf exPs1 2 = stockOf exDb.products 2 - itemsQty exPre 2 :=
  ⟨(claim_C2_no_rollback exDb exUser exPre exPost exBadStock "addr"
      (some "card") 1 exPs1 200
      [{ product := 1, quantity := 2, price := 100, size := "M", color := "blue" }]
      (by rfl)).1
    { pid := 2, name := "Cap", price := 30, stock := 3,
      category := "men", featured := false } (by decide) (by decide),
   (claim_C2_no_rollback exDb exUser exPre exPost exBadMissing "addr"
      (some "card") 1 exPs1 200
      [{ product := 1, quantity := 2, price := 100, size := "M", color := "blue" }]
      (by rfl)).2.1 (by decide),
   (claim_C2_no_rollback exDb exUser exPre exPost exBadStock "addr"
      (some "card") 1 exPs1 200
      [{ product := 1, quantity := 2, price := 100, size := "M", color := "blue" }]
      (by rfl)).2.2 2⟩

/-- C3: cancelling an order with status pending/processing/shipped, with a
non-empty reason, by its owner or an admin, restores every item's quantity
to the referenced product's stock (a missing product is skipped as a
no-op: the conditional adds nothing when the product no longer exists, and
the set of existing products is unchanged), sets the order's status to
cancelled, persists the cancellation reason, and a second cancellation of
the same order then fails with InvalidState leaving the state unchanged. -/
theorem claim_C3_cancel_spec (db : DB) (r : Requester) (oid : Nat)
    (rs : String) (o : Order)
    (hfo : findOrder db.orders oid = some o)
    (hrs : rs ≠ "")
    (hauth : r.role = Role.admin ∨ o.user = r.uid)
    (hstatus : o.status = OrderStatus.pending ∨
      o.status = OrderStatus.processing ∨ o.status = OrderStatus.shipped) :
    cancelOrder db r oid (some rs) =
      ({ products := restoreStock db.products o.items,
         orders := saveOrder db.orders
           { o with status := OrderStatus.cancelled,
                    cancellationReason := some rs } },
        Except.ok { o with status := OrderStatus.cancelled,
                           cancellationReason := some rs }) ∧
    (∀ j, stockOf (cancelOrder db r oid (some rs)).1.products j =
      stockOf db.products j +
        (if hasProduct db.products j then orderQty o.items j else 0)) ∧
    (∀ j, hasProduct (cancelOrder db r oid (some rs)).1.products j =
      hasProduct db.products j) ∧
    findOrder (cancelOrder db r oid (some rs)).1.orders oid =
      some { o with status := OrderStatus.cancelled,
                    cancellationReason := some rs } ∧
    (∀ rs2 : String, rs2 ≠ "" →
      cancelOrder (cancelOrder db r oid (some rs)).1 r oid (some rs2) =
        ((cancelOrder db r oid (some rs)).1,
          Except.error OrderError.InvalidState)) := by
  have hoid : o.oid = oid := findOrder_oid hfo
  have hreason : ¬ (some rs : Option String).getD "" = "" := by
    simpa using hrs
  have hauth2 : ¬ (r.role ≠ Role.admin ∧ o.user ≠ r.uid) := by
    rcases hauth with h | h
    · intro hc
      exact hc.1 h
    · intro hc
      exact hc.2 h
  have hterm : ¬ (o.status = OrderStatus.delivered ∨
      o.status = OrderStatus.cancelled) := by
    rcases hstatus with h | h | h <;> rw [h] <;> intro hc <;>
      rcases hc with hc | hc <;> simp at hc
  have hres : cancelOrder db r oid (some rs) =
      ({ products := restoreStock db.products o.items,
         orders := saveOrder db.orders
           { o with status := OrderStatus.cancelled,
                    cancellationReason := some rs } },
        Except.ok { o with status := OrderStatus.cancelled,
                           cancellationReason := some rs }) := by
    rw [cancelOrder, if_neg hreason]
    simp only [hfo]
    rw [if_neg hauth2, if_neg hterm]
  obtain ⟨hRHas, hRStock⟩ := restoreStock_spec o.items db.products
  have hfo2 : findOrder (cancelOrder db r oid (some rs)).1.orders oid =
      some { o with status := OrderStatus.cancelled,
                    cancellationReason := some rs } := by
    rw [hres]
    show findOrder (saveOrder db.orders _) oid = _
    rw [findOrder_saveOrder]
    simp [hoid]
  refine ⟨hres, ?_, ?_, hfo2, ?_⟩
  · intro j
    rw [hres]
    exact hRStock j
  · intro j
    rw [hres]
    exact hRHas j
  · intro rs2 hrs2
    have hreason2 : ¬ (some rs2 : Option String).getD "" = "" := by
      simpa using hrs2
    rw [cancelOrder, if_neg hreason2]
    simp only [hfo2]
    have hauth3 : ¬ (r.role ≠ Role.admin ∧
        ({ o with status := OrderStatus.cancelled,
                  cancellationReason := some rs } : Order).user ≠ r.uid) := by
      rcases hauth with h | h
      · intro hc
        exact hc.1 h
      · intro hc
        exact hc.2 h
    rw [if_neg hauth3]
    simp

/-- Witness for C3: the owner cancels the pending order `exOrder` with a
non-empty reason; stock of product 1 goes from 5 back to 7, the persisted
order is cancelled with the reason recorded, and a second cancellation
fails with InvalidState. -/
theorem claim_C3_witness :
    cancelOrder exDbOrder exUser 1 (some "late") =
      ({ products := restoreStock exDbOrder.products exOrder.items,
         orders := saveOrder exDbOrder.orders
           { exOrder with status := OrderStatus.cancelled,
                          cancellationReason := some "late" } },
        Except.ok { exOrder with status := OrderStatus.cancelled,
                                 cancellationReason := some "late" }) ∧
    (∀ j, stockOf (cancelOrder exDbOrder exUser 1 (some "late")).1.products j =
      stockOf exDbOrder.products j +
        (if hasProduct exDbOrder.products j then orderQty exOrder.items j else 0)) ∧
    (∀ j, hasProduct (cancelOrder exDbOrder exUser 1 (some "late")).1.products j =
      hasProduct exDbOrder.products j) ∧
    findOrder (cancelOrder exDbOrder exUser 1 (some "late")).1.orders 1 =
      some { exOrder with status := OrderStatus.cancelled,
                          cancellationReason := some "late" } ∧
    (∀ rs2 : String, rs2 ≠ "" →
      cancelOrder (cancelOrder exDbOrder exUser 1 (some "late")).1 exUser 1
          (some rs2) =
        ((cancelOrder exDbOrder exUser 1 (some "late")).1,
          Except.error OrderError.InvalidState)) :=
  claim_C3_cancel_spec exDbOrder exUser 1 "late" exOrder (by rfl) (by decide)
    (by decide) (by decide)

/-- C7: cancellation fails with ValidationError for an empty or missing
reason, with Forbidden for a requester who is neither admin nor the order's
owner, and with InvalidState for an authorized requester when the order is
already delivered or cancelled; viewing another user's order as a non-owner
non-admin likewise fails with Forbidden; in each failure the database (stock
and order records) is returned unchanged. -/
theorem claim_C7_cancel_error_cases (db : DB) (r : Requester) (oid : Nat) :
    (∀ reason : Option String, reason.getD "" = "" →
      cancelOrder db r oid reason =
        (db, Except.error OrderError.ValidationError)) ∧
    (∀ rs : String, rs ≠ "" → ∀ o : Order,
      findOrder db.orders oid = some o →
      r.role ≠ Role.admin → o.user ≠ r.uid →
      cancelOrder db r oid (some rs) =
        (db, Except.error OrderError.Forbidden)) ∧
    (∀ rs : String, rs ≠ "" → ∀ o : Order,
      findOrder db.orders oid = some o →
      (r.role = Role.admin ∨ o.user = r.uid) →
      (o.status = OrderStatus.delivered ∨ o.status = OrderStatus.cancelled) →
      cancelOrder db r oid (some rs) =
        (db, Except.error OrderError.InvalidState)) ∧
    (∀ o : Order, findOrder db.orders oid = some o →
      r.role ≠ Role.admin → o.user ≠ r.uid →
      getOrder db r oid = Except.error OrderError.Forbidden) := by
  refine ⟨?_, ?_, ?_, ?_⟩
  · intro reason hreason
    rw [cancelOrder, if_pos hreason]
  · intro rs hrs o hfo hrole howner
    have hreason : ¬ (some rs : Option String).getD "" = "" := by
      simpa using hrs
    rw [cancelOrder, if_neg hreason]
    simp only [hfo]
    rw [if_pos ⟨hrole, howner⟩]
  · intro rs hrs o hfo hauth hterm
    have hreason : ¬ (some rs : Option String).getD "" = "" := by
      simpa using hrs
    have hauth2 : ¬ (r.role ≠ Role.admin ∧ o.user ≠ r.uid) := by
      rcases hauth with h | h
      · intro hc
        exact hc.1 h
      · intro hc
        exact hc.2 h
    rw [cancelOrder, if_neg hreason]
    simp only [hfo]
    rw [if_neg hauth2, if_pos hterm]
  · intro o hfo hrole howner
    rw [getOrder]
    simp only [hfo]
    rw [if_pos ⟨hrole, howner⟩]

/-- Witness for C7: a missing reason yields ValidationError; a stranger
(neither admin nor owner) gets Forbidden on cancel and on view; the owner
cancelling the already-delivered order gets InvalidState; the database is
unchanged each time. -/
theorem claim_C7_witness :
    cancelOrder exDbOrder exUser 1 none =
      (exDbOrder, Except.error OrderError.ValidationError) ∧
    cancelOrder exDbOrder exStranger 1 (some "go away") =
      (exDbOrder, Except.error OrderError.Forbidden) ∧
    cancelOrder exDbDelivered exUser 1 (some "too late") =
      (exDbDelivered, Except.error OrderError.InvalidState) ∧
    getOrder exDbOrder exStranger 1 = Except.error OrderError.Forbidden :=
  ⟨(claim_C7_cancel_error_cases exDbOrder exUser 1).1 none (by decide),
   (claim_C7_cancel_error_cases exDbOrder exStranger 1).2.1 "go away"
     (by decide) exOrder (by rfl) (by decide) (by decide),
   (claim_C7_cancel_error_cases exDbDelivered exUser 1).2.2.1 "too late"
     (by decide) { exOrder with status := OrderStatus.delivered } (by rfl)
     (by decide) (by decide),
   (claim_C7_cancel_error_cases exDbOrder exStranger 1).2.2.2 exOrder
     (by rfl) (by decide) (by decide)⟩

/-- C5 counterexample: the admin status update has no transition-legality
check (orders.js line 129 overwrites unconditionally), so an order whose
status is delivered is moved back to pending — refuting "once delivered or
cancelled, no operation changes the status again". -/
theorem claim_C5_counterexample :
    (findOrder exDbDelivered.orders 1).map Order.status =
      some OrderStatus.delivered ∧
    (findOrder (updateStatus exDbDelivered 1 OrderStatus.pending).1.orders 1).map
        Order.status = some OrderStatus.pending := by
  constructor
  · rfl
  · rfl

/-- C5 (amended): cancellation alone respects the terminal states — on an
order whose status is delivered or cancelled, `PUT /:id/cancel` returns the
database unchanged and never succeeds, whatever the requester and reason;
the admin status update (and payment verification) can still move an order
out of a terminal status. -/
theorem claim_C5_cancel_respects_terminal (db : DB) (r : Requester)
    (oid : Nat) (reason : Option String) (o : Order)
    (hfo : findOrder db.orders oid = some o)
    (hterm : o.status = OrderStatus.delivered ∨
      o.status = OrderStatus.cancelled) :
    (cancelOrder db r oid reason).1 = db ∧
    ∀ o2 : Order, (cancelOrder db r oid reason).2 ≠ Except.ok o2 := by
  by_cases hreason : reason.getD "" = ""
  · rw [cancelOrder, if_pos hreason]
    exact ⟨rfl, fun o2 h => by simp at h⟩
  · by_cases hauth : r.role ≠ Role.admin ∧ o.user ≠ r.uid
    · rw [cancelOrder, if_neg hreason]
      simp only [hfo]
      rw [if_pos hauth]
      exact ⟨rfl, fun o2 h => by simp at h⟩
    · rw [cancelOrder, if_neg hreason]
      simp only [hfo]
      rw [if_neg hauth, if_pos hterm]
      exact ⟨rfl, fun o2 h => by simp at h⟩

/-- Witness for C5 (amended): cancelling the delivered order leaves the
database unchanged and does not return the order as cancelled. -/
theorem claim_C5_witness :
    (cancelOrder exDbDelivered exUser 1 (some "try")).1 = exDbDelivered ∧
    (cancelOrder exDbDelivered exUser 1 (some "try")).2 ≠
      Except.ok { exOrder with status := OrderStatus.cancelled,
                               cancellationReason := some "try" } :=
  ⟨(claim_C5_cancel_respects_terminal exDbDelivered exUser 1 (some "try")
      { exOrder with status := OrderStatus.delivered } (by rfl)
      (by decide)).1,
   (claim_C5_cancel_respects_terminal exDbDelivered exUser 1 (some "try")
      { exOrder with status := OrderStatus.delivered } (by rfl)
      (by decide)).2 _⟩

/-- C4 counterexample: create/cancel bookkeeping is broken by the
unconditional admin status update. Starting from the pending order
`exOrder` (2 units of product 1 deducted at creation, persisted stock 5):
cancel (stock 5 → 7), admin sets the status back to processing, cancel
again (stock 7 → 9). The order ends cancelled yet 4 units were restored
for the 2 deducted — stock is double-restored, refuting the invariant over
sequences that include the admin status update (payment verification
similarly sets status to processing unconditionally). -/
theorem claim_C4_counterexample :
    stockOf exDbOrder.products 1 = 5 ∧
    orderQty exOrder.items 1 = 2 ∧
    (findOrder c4db3.orders 1).map Order.status = some OrderStatus.cancelled ∧
    stockOf c4db3.products 1 = 9 := by
  refine ⟨rfl, rfl, rfl, rfl⟩

/-- C4 (amended): over sequences built only from order creations and
cancellations in which every request succeeds, every product's stock
always equals its initial stock minus the total quantity held by
non-cancelled orders — so the stock deducted at an order's creation is
restored in full exactly when the order is cancelled, and is never
double-deducted or double-restored. (The unconditional admin status
update and payment verification break this, and a failed multi-item
creation leaks its partial deductions; see the counterexample.) -/
theorem claim_C4_stock_conservation (db : DB) (ops : List Op)
    (h0 : db.orders = []) (hg : opsGood db ops = true) :
    ∀ j, stockOf (runOps db ops).products j =
      stockOf db.products j - activeQty (runOps db ops).orders j := by
  have hInv : ConsInv db db := by
    constructor
    · intro j
      rfl
    · intro o ho
      rw [h0] at ho
      simp at ho
    · intro j
      rw [h0]
      simp [activeQty]
  exact (consInv_runOps ops db db hInv hg).cons

/-- Witness for C4 (amended): a successful create-then-cancel sequence on
`exDb` — after the cancellation the orders list holds one cancelled order,
`activeQty` is 0, and product 1's stock is back to its initial 5. -/
theorem claim_C4_witness :
    opsGood exDb exOps = true ∧
    stockOf (runOps exDb exOps).products 1 =
      stockOf exDb.products 1 - activeQty (runOps exDb exOps).orders 1 :=
  ⟨by decide, claim_C4_stock_conservation exDb exOps rfl (by decide) 1⟩

/-- C6: payment verification recomputes the expected signature by applying
the HMAC-SHA256 collaborator to "{gatewayOrderId}|{gatewayPaymentId}" under
the shared secret and fails with VerificationFailed exactly when it differs
from the supplied signature (given the three gateway fields are present);
on a match it reports success echoing the gateway ids, and: a supplied but
missing local order leaves the database unchanged (not fatal), while a
supplied and found local order has its paymentInfo replaced by
{id: paymentId, status: completed, method: Razorpay} and status set to
processing. -/
theorem claim_C6_verify_payment (hmacSha256 : String → String → String)
    (secret : String) (db : DB) (gwO gwP sig : String) (loid : Option Nat)
    (hO : gwO ≠ "") (hP : gwP ≠ "") (hgs : sig ≠ "") :
    (hmacSha256 secret (gwO ++ "|" ++ gwP) ≠ sig →
      verifyPayment hmacSha256 secret db gwO gwP sig loid =
        (db, Except.error OrderError.VerificationFailed)) ∧
    (hmacSha256 secret (gwO ++ "|" ++ gwP) = sig →
      (verifyPayment hmacSha256 secret db gwO gwP sig loid).2 =
        Except.ok { orderId := gwO, paymentId := gwP } ∧
      (∀ i, loid = some i → findOrder db.orders i = none →
        (verifyPayment hmacSha256 secret db gwO gwP sig loid).1 = db) ∧
      (∀ i o, loid = some i → findOrder db.orders i = some o →
        findOrder (verifyPayment hmacSha256 secret db gwO gwP sig loid).1.orders i =
          some { o with paymentId := some gwP,
                        paymentStatus := some "completed",
                        paymentMethodField := "Razorpay",
                        status := OrderStatus.processing } ∧
        (∀ i2, i2 ≠ i →
          findOrder (verifyPayment hmacSha256 secret db gwO gwP sig loid).1.orders i2 =
            findOrder db.orders i2))) := by
  have hpresent : ¬ (gwO = "" ∨ gwP = "" ∨ sig = "") := by
    intro hc
    rcases hc with hc | hc | hc
    · exact hO hc
    · exact hP hc
    · exact hgs hc
  constructor
  · intro hmis
    simp only [verifyPayment]
    rw [if_neg hpresent, if_pos hmis]
  · intro hmatch
    have hnn : ¬ hmacSha256 secret (gwO ++ "|" ++ gwP) ≠ sig := by
      simpa using hmatch
    refine ⟨?_, ?_, ?_⟩
    · simp only [verifyPayment]
      rw [if_neg hpresent, if_neg hnn]
    · intro i hloid hfo
      subst hloid
      simp only [verifyPayment]
      rw [if_neg hpresent, if_neg hnn]
      simp [hfo]
    · intro i o hloid hfo
      subst hloid
      have hoid : o.oid = i := findOrder_oid hfo
      have hstate : (verifyPayment hmacSha256 secret db gwO gwP sig (some i)).1.orders =
          saveOrder db.orders
            { o with paymentId := some gwP,
                     paymentStatus := some "completed",
                     paymentMethodField := "Razorpay",
                     status := OrderStatus.processing } := by
        simp only [verifyPayment]
        rw [if_neg hpresent, if_neg hnn]
        simp [hfo]
      constructor
      · rw [hstate, findOrder_saveOrder]
        simp [hoid]
      · intro i2 hi2
        rw [hstate, findOrder_saveOrder]
        simp only [hoid]
        rw [if_neg hi2]

/-- Witness for C6: with the sample HMAC collaborator, a wrong signature is
rejected with the database unchanged, and the correct signature
("sec:go|gp") succeeds and rewrites the pending order's payment info and
status. -/
theorem claim_C6_witness :
    verifyPayment exHmac "sec" exDbOrder "go" "gp" "bad" (some 1) =
      (exDbOrder, Except.error OrderError.VerificationFailed) ∧
    (verifyPayment exHmac "sec" exDbOrder "go" "gp" "sec:go|gp" (some 1)).2 =
      Except.ok { orderId := "go", paymentId := "gp" } ∧
    findOrder (verifyPayment exHmac "sec" exDbOrder "go" "gp" "sec:go|gp"
        (some 1)).1.orders 1 =
      some { exOrder with paymentId := some "gp",
                          paymentStatus := some "completed",
                          paymentMethodField := "Razorpay",
                          status := OrderStatus.processing } :=
  ⟨(claim_C6_verify_payment exHmac "sec" exDbOrder "go" "gp" "bad" (some 1)
      (by decide) (by decide) (by decide)).1 (by decide),
   ((claim_C6_verify_payment exHmac "sec" exDbOrder "go" "gp" "sec:go|gp"
      (some 1) (by decide) (by decide) (by decide)).2 (by decide)).1,
   (((claim_C6_verify_payment exHmac "sec" exDbOrder "go" "gp" "sec:go|gp"
      (some 1) (by decide) (by decide) (by decide)).2 (by decide)).2.2 1
      exOrder rfl (by rfl)).1⟩

/-- C8 (code bug): a valid single-item order with the payment method
omitted does not succeed with the default gateway method — line 96 of
orders.js evaluates `paymentMethod.toLowerCase()` before the
`paymentMethod || 'Razorpay'` default can apply, so the handler throws a
TypeError and answers with the catch-all 500, after the stock deduction
(5 → 4) was already persisted and with no order record created. -/
theorem claim_C8_missing_payment_method :
    createOrder exDb exUser
      [{ product := 1, quantity := 1, size := "M", color := "blue" }] "addr"
      none 1 =
    ({ products :=
        [{ pid := 1, name := "Shirt", price := 100, stock := 4,
           category := "men", featured := true },
         { pid := 2, name := "Cap", price := 30, stock := 3,
           category := "men", featured := false }],
       orders := [] },
      Except.error OrderError.ServerError) := by
  rfl

theorem subMatch_nil_needle : ∀ hay : List Char, subMatch [] hay = true := by
  intro hay
  cases hay with
  | nil => rfl
  | cons h hs => simp [subMatch, headMatch]

theorem containsCI_empty_term (name : String) : containsCI name "" = true := by
  have h0 : lowerChars "" = ([] : List Char) := rfl
  rw [containsCI, h0]
  exact subMatch_nil_needle _

/-- C9: for every search term, the catalog listing returns exactly the
products whose name contains the term as a case-insensitive substring,
conjoined with the category filter (when supplied non-empty) and the
featured filter (when supplied as "true"): the code's query
(`listProducts`) coincides with the spec-side predicate
(`specCatalogMatch`). The empty term is a degenerate match-all on both
sides. -/
theorem claim_C9_search_filter (db : DB) (category featured : Option String)
    (term : String) :
    listProducts db category featured (some term) =
      db.products.filter (fun p => specCatalogMatch category featured term p) := by
  have hpt : ∀ p : Product,
      matchesQuery (buildQuery category featured (some term)) p =
      specCatalogMatch category featured term p := by
    intro p
    simp only [matchesQuery, buildQuery, specCatalogMatch, jsTruthy]
    by_cases hf : featured = some "true" <;> by_cases ht : term = "" <;>
      rcases category with _ | c
    · simp [hf, ht, containsCI_empty_term]
    · by_cases hc : c = "" <;>
        simp [hf, ht, hc, containsCI_empty_term, Bool.and_comm,
          Bool.and_left_comm, Bool.and_assoc]
    · simp [hf, ht, Bool.and_comm]
    · by_cases hc : c = "" <;>
        simp [hf, ht, hc, Bool.and_comm, Bool.and_left_comm, Bool.and_assoc]
    · simp [hf, ht, containsCI_empty_term]
    · by_cases hc : c = "" <;>
        simp [hf, ht, hc, containsCI_empty_term, Bool.and_comm,
          Bool.and_left_comm, Bool.and_assoc]
    · simp [hf, ht]
    · by_cases hc : c = "" <;>
        simp [hf, ht, hc, Bool.and_comm, Bool.and_left_comm, Bool.and_assoc]
  rw [listProducts]
  exact List.filter_congr (fun a _ => hpt a)
